import Mathlib

/-!
Verification of the `prost-simple-rpc` RPC runtime core.

Shallow embedding of:
  * `src/error.rs` — the layered error taxonomy `Error<E>`;
  * `src/__rt.rs` — the `ClientFuture` / `ServerFuture` call-lifecycle state
    machines and the `encode` / `decode` codec helpers;
  * `build/src/lib.rs` — the generated exhaustive server dispatch,
    instantiated at the example's `Greeting` service.

Byte buffers are `List Nat`; futures are modelled by explicit state values
together with a polling function passed as a parameter (mirroring the
`futures 0.1` `poll(&mut self) -> Poll<Item, Error>` discipline, with the
in-place mutation made explicit by returning the successor state).
-/

namespace ProstSimpleRpc

/-- Embedding of `prost::DecodeError` (an opaque leaf error carrying a
description). -/
structure DecodeError where
  description : String
deriving DecidableEq, Repr

/-- Embedding of `prost::EncodeError` (an opaque leaf error carrying the
required and remaining buffer sizes). -/
structure EncodeError where
  required : Nat
  remaining : Nat
deriving DecidableEq, Repr

/-- Embedding of `futures::Canceled` (a unit struct). -/
structure Canceled where
deriving DecidableEq, Repr

/-- Embedding of `error::Error<E>` from `src/error.rs`: the tagged union of
execution, decode, encode and cancellation failures, generic over the
business-error type `E`. -/
inductive Error (E : Type) : Type where
  | Execution (error : E)
  | Decode (error : DecodeError)
  | Encode (error : EncodeError)
  | Canceled (error : Canceled)
deriving DecidableEq, Repr

/-- Embedding of `Error::execution` from `src/error.rs`: constructs a new
execution error. -/
def Error.execution {E : Type} (error : E) : Error E :=
  Error.Execution error

/-- Embedding of `impl From<prost::DecodeError> for Error<E>`. -/
def Error.fromDecodeError {E : Type} (error : DecodeError) : Error E :=
  Error.Decode error

/-- Embedding of `impl From<prost::EncodeError> for Error<E>`. -/
def Error.fromEncodeError {E : Type} (error : EncodeError) : Error E :=
  Error.Encode error

/-!
## The wire codec

Modelled from the spec: the message types of the example services are
generated by `prost` from the `.proto` schemas at build time and are not
part of the sources; §4.2 describes the codec as "a length-aware binary
protocol-buffer encoding" whose `decode` "fails on malformed or truncated
input".  We model a proto3 message with a single `bytes data = 1` field
(the shape of the example's `EchoRequest` / `EchoResponse`) together with
the protocol-buffer base-128 varint wire format.
-/

/-- A protobuf message with a single `bytes data = 1` field, the shape of
the example's `EchoRequest` / `EchoResponse`. -/
structure Msg where
  data : List Nat
deriving DecidableEq, Repr

/-- Base-128 varint encoding, fuel-recursive (the fuel `n + 1` always
suffices since the argument shrinks by a factor of 128 each step). -/
def encodeVarintAux : Nat → Nat → List Nat
  | 0, n => [n % 128]
  | fuel + 1, n =>
    if n < 128 then [n] else (n % 128 + 128) :: encodeVarintAux fuel (n / 128)

/-- Base-128 varint encoding of a natural number. -/
def encodeVarint (n : Nat) : List Nat :=
  encodeVarintAux (n + 1) n

/-- The number of bytes of the base-128 varint encoding of `n`
(`prost::encoding::encoded_len_varint`). -/
def varintLenAux : Nat → Nat → Nat
  | 0, _ => 1
  | fuel + 1, n => if n < 128 then 1 else 1 + varintLenAux fuel (n / 128)

/-- Byte length of the varint encoding of `n`. -/
def varintLen (n : Nat) : Nat :=
  varintLenAux (n + 1) n

/-- Base-128 varint decoding: returns the decoded value and the remaining
bytes, or `none` on a truncated varint. -/
def decodeVarint : List Nat → Option (Nat × List Nat)
  | [] => none
  | b :: rest =>
    if b < 128 then some (b, rest)
    else
      match decodeVarint rest with
      | none => none
      | some (n, rest2) => some (b - 128 + 128 * n, rest2)

/-- `prost`-style encoding of `Msg`: proto3 skips a default (empty) field;
otherwise emits key `0x0A` (field 1, wire type 2), the length varint, and
the raw bytes. -/
def encodeMsg (m : Msg) : List Nat :=
  if m.data = [] then []
  else 10 :: (encodeVarint m.data.length ++ m.data)

/-- `prost`-style `encoded_len` for `Msg`: the exact number of bytes
`encodeMsg` produces, computed arithmetically before any byte is written. -/
def encodedLenMsg (m : Msg) : Nat :=
  if m.data = [] then 0
  else 1 + varintLen m.data.length + m.data.length

/-- One field-parsing loop for decoding a `Msg`, fuel-recursive over the
buffer (fuel `length + 1` always suffices since each step consumes at least
one byte).  Fails on a truncated varint, a truncated length-delimited
payload, a wrong wire type for field 1, or an unsupported wire type. -/
def decodeFieldsAux : Nat → Msg → List Nat → Except DecodeError Msg
  | _, m, [] => Except.ok m
  | 0, _, _ :: _ => Except.error ⟨"internal fuel exhausted"⟩
  | fuel + 1, m, buf =>
    match decodeVarint buf with
    | none => Except.error ⟨"invalid varint"⟩
    | some (key, rest) =>
      let field := key / 8
      let wire := key % 8
      if wire = 2 then
        match decodeVarint rest with
        | none => Except.error ⟨"invalid varint"⟩
        | some (len, rest2) =>
          if len ≤ rest2.length then
            decodeFieldsAux fuel
              (if field = 1 then ⟨rest2.take len⟩ else m) (rest2.drop len)
          else Except.error ⟨"buffer underflow"⟩
      else if wire = 0 then
        if field = 1 then Except.error ⟨"invalid wire type"⟩
        else
          match decodeVarint rest with
          | none => Except.error ⟨"invalid varint"⟩
          | some (_, rest2) => decodeFieldsAux fuel m rest2
      else Except.error ⟨"invalid wire type"⟩

/-- `prost`-style decoding of a `Msg` from a byte buffer: hydrates the
default (empty) message and merges every field present in the buffer. -/
def decodeMsg (buf : List Nat) : Except DecodeError Msg :=
  decodeFieldsAux (buf.length + 1) ⟨[]⟩ buf

/-- The `prost::Message::encode` step for `Msg` (never fails: the `BytesMut`
target grows on demand, so the capacity check always passes). -/
def Msg.encodeE (m : Msg) : Except EncodeError (List Nat) :=
  Except.ok (encodeMsg m)

/-- The `prost::Message::decode` step for `Msg`. -/
def Msg.decodeE (buf : List Nat) : Except DecodeError Msg :=
  decodeMsg buf

/-!
## `__rt::encode` / `__rt::decode`

`__rt::encode` precomputes `encoded_len`, allocates a `BytesMut` with that
capacity, writes the message, and freezes the buffer; errors are converted
into `Error<E>` via the `From` impls of `src/error.rs`.  The `BytesMut`
model tracks capacity and counts reallocations: a write past the current
capacity grows the buffer and bumps the reallocation counter.
-/

/-- A model of `bytes::BytesMut`: current capacity, written bytes, and the
number of reallocations performed so far. -/
structure BytesMut where
  capacity : Nat
  data : List Nat
  reallocs : Nat
deriving DecidableEq, Repr

/-- `BytesMut::with_capacity`: an empty buffer with the given capacity and
no reallocations. -/
def BytesMut.withCapacity (n : Nat) : BytesMut :=
  ⟨n, [], 0⟩

/-- Appending one byte: within capacity this is a plain write; past
capacity the buffer reallocates (growing) and the reallocation counter is
incremented. -/
def BytesMut.putByte (b : BytesMut) (x : Nat) : BytesMut :=
  if b.data.length + 1 ≤ b.capacity then ⟨b.capacity, b.data ++ [x], b.reallocs⟩
  else ⟨max (2 * b.capacity) (b.data.length + 1), b.data ++ [x], b.reallocs + 1⟩

/-- Appending a byte sequence, byte by byte. -/
def BytesMut.putBytes (b : BytesMut) (xs : List Nat) : BytesMut :=
  xs.foldl BytesMut.putByte b

/-- Embedding of `__rt::encode` for the concrete `Msg` type, keeping the
buffer visible: compute `encoded_len`, allocate with exactly that capacity,
then write the encoded bytes. -/
def rtEncodeBuf (m : Msg) : BytesMut :=
  (BytesMut.withCapacity (encodedLenMsg m)).putBytes (encodeMsg m)

/-- Embedding of generic `__rt::encode`: run the message's encode step and
convert an `EncodeError` into `Error::Encode` (the `From` impl applied by
`?`). -/
def rtEncode {O E : Type} (enc : O → Except EncodeError (List Nat))
    (message : O) : Except (Error E) (List Nat) :=
  match enc message with
  | Except.ok bs => Except.ok bs
  | Except.error e => Except.error (Error.fromEncodeError e)

/-- Embedding of generic `__rt::decode`: run the message's decode step and
convert a `DecodeError` into `Error::Decode` (the `From` impl applied by
`?`). -/
def rtDecode {I E : Type} (dec : List Nat → Except DecodeError I)
    (buf : List Nat) : Except (Error E) I :=
  match dec buf with
  | Except.ok message => Except.ok message
  | Except.error e => Except.error (Error.fromDecodeError e)

/-!
## The call-lifecycle state machines (`src/__rt.rs`)

`ClientFuture` / `ServerFuture` are generic over the handler, the message
types and the awaited sub-future; we carry those as type parameters and
take the codec steps, the handler-call constructor and the sub-future's
poll function as explicit function parameters (the shallow counterparts of
the `prost::Message` / `Handler` / `Future` trait bounds).
-/

/-- The result of polling an awaited sub-future (`futures::Future::poll`
on the handler's call future or the business future): `Ok(Async::Ready)`,
`Ok(Async::NotReady)` (returning the in-place-mutated future), `Err`, or an
unwound panic. -/
inductive FuturePoll (F O E : Type) : Type where
  | ready (value : O)
  | notReady (fut : F)
  | err (e : E)
  | panicked (msg : String)

/-- The result of one `poll` of a call-lifecycle state machine: the value
or error outcome together with the state the machine left behind in `self`,
`NotReady` with the successor state, or an unwound panic. -/
inductive PollResult (S O E : Type) : Type where
  | ready (value : O) (state : S)
  | notReady (state : S)
  | err (e : E) (state : S)
  | panicked (msg : String)

/-- Embedding of `__rt::ClientFuture<H, I, O>`: `Encode` holds the typed
input, the handler, and the method descriptor; `Call` holds the in-flight
handler future; `Done` is terminal. -/
inductive ClientFuture (I H M F : Type) : Type where
  | Encode (input : I) (handler : H) (method : M)
  | Call (fut : F)
  | Done

/-- Embedding of `__rt::ServerFuture<A, E, F, I, O>`: `Decode` holds the
raw bytes, the service value and the selected method function; `Execute`
holds the in-flight business future; `Done` is terminal. -/
inductive ServerFuture (A I F : Type) : Type where
  | Decode (bytes : List Nat) (handler : A) (method : A → I → F)
  | Execute (fut : F)
  | Done

/-- The `ClientFuture::Call` arm of `ClientFuture::poll`: poll the handler
future; on `Ready(bytes)` decode to the typed output (a local failure keeps
its `Decode` tag), on `NotReady` restore the `Call` state, on `Err` wrap
the handler's error in a fresh `Execution`.  `self` was already replaced
with `Done` before the arm runs, so every returning path other than
`NotReady` leaves `Done` behind. -/
def clientPollCall {I H M F O E : Type}
    (dec : List Nat → Except DecodeError O)
    (pollF : F → FuturePoll F (List Nat) E) (fut : F) :
    PollResult (ClientFuture I H M F) O (Error E) :=
  match pollF fut with
  | FuturePoll.ready bs =>
    match rtDecode (E := E) dec bs with
    | Except.ok o => PollResult.ready o ClientFuture.Done
    | Except.error e => PollResult.err e ClientFuture.Done
  | FuturePoll.notReady fut2 => PollResult.notReady (ClientFuture.Call fut2)
  | FuturePoll.err e => PollResult.err (Error.execution e) ClientFuture.Done
  | FuturePoll.panicked msg => PollResult.panicked msg

/-- Embedding of `ClientFuture::poll` (`src/__rt.rs` lines 65–86): the loop
replaces `self` with `Done`, then either encodes and immediately continues
into the `Call` arm (a local encode failure keeps its `Encode` tag), polls
the in-flight call, or panics on a re-poll of `Done`. -/
def clientPoll {I H M F O E : Type}
    (enc : I → Except EncodeError (List Nat))
    (dec : List Nat → Except DecodeError O)
    (hcall : H → M → List Nat → F)
    (pollF : F → FuturePoll F (List Nat) E) :
    ClientFuture I H M F → PollResult (ClientFuture I H M F) O (Error E)
  | ClientFuture.Encode input handler method =>
    match rtEncode (E := E) enc input with
    | Except.error e => PollResult.err e ClientFuture.Done
    | Except.ok bs => clientPollCall dec pollF (hcall handler method bs)
  | ClientFuture.Call fut => clientPollCall dec pollF fut
  | ClientFuture.Done => PollResult.panicked "cannot poll a client future twice"

/-- The `ServerFuture::Execute` arm of `ServerFuture::poll`: poll the
business future; on `Ready(output)` encode it (a local failure keeps its
`Encode` tag), on `NotReady` restore the `Execute` state, on `Err` wrap the
business error in a fresh `Execution`. -/
def serverPollExecute {A I F O E : Type}
    (enc : O → Except EncodeError (List Nat))
    (pollF : F → FuturePoll F O E) (fut : F) :
    PollResult (ServerFuture A I F) (List Nat) (Error E) :=
  match pollF fut with
  | FuturePoll.ready output =>
    match rtEncode (E := E) enc output with
    | Except.ok bs => PollResult.ready bs ServerFuture.Done
    | Except.error e => PollResult.err e ServerFuture.Done
  | FuturePoll.notReady fut2 => PollResult.notReady (ServerFuture.Execute fut2)
  | FuturePoll.err e => PollResult.err (Error.execution e) ServerFuture.Done
  | FuturePoll.panicked msg => PollResult.panicked msg

/-- Embedding of `ServerFuture::poll` (`src/__rt.rs` lines 104–125): the
loop replaces `self` with `Done`, then either decodes and immediately
continues into the `Execute` arm (a local decode failure keeps its `Decode`
tag), polls the business future, or panics on a re-poll of `Done`. -/
def serverPoll {A I F O E : Type}
    (dec : List Nat → Except DecodeError I)
    (enc : O → Except EncodeError (List Nat))
    (pollF : F → FuturePoll F O E) :
    ServerFuture A I F → PollResult (ServerFuture A I F) (List Nat) (Error E)
  | ServerFuture.Decode bytes handler method =>
    match rtDecode (E := E) dec bytes with
    | Except.error e => PollResult.err e ServerFuture.Done
    | Except.ok input => serverPollExecute enc pollF (method handler input)
  | ServerFuture.Execute fut => serverPollExecute enc pollF fut
  | ServerFuture.Done => PollResult.panicked "cannot poll a server future twice"

/-- A `ServerFuture` viewed as a handler's call future (the in-process
composition where a client's handler is a server): its `Future::poll` is
`ServerFuture::poll`, with the machine's successor state kept only in the
`NotReady` case, exactly as the caller's `Call` state does. -/
def serverAsFuture {A I F O E : Type}
    (dec : List Nat → Except DecodeError I)
    (enc : O → Except EncodeError (List Nat))
    (pollF : F → FuturePoll F O E) (s : ServerFuture A I F) :
    FuturePoll (ServerFuture A I F) (List Nat) (Error E) :=
  match serverPoll dec enc pollF s with
  | PollResult.ready bs _ => FuturePoll.ready bs
  | PollResult.notReady s2 => FuturePoll.notReady s2
  | PollResult.err e _ => FuturePoll.err e
  | PollResult.panicked msg => FuturePoll.panicked msg

/-- A one-shot future that reports `NotReady` for `pending` polls and then
completes with `result` (`futures::future::FutureResult` is the `pending =
0` case, used by the example services). -/
structure DelayedFuture (O E : Type) : Type where
  pending : Nat
  result : Except E O

/-- Polling a `DelayedFuture`: count down the pending polls, then surface
the stored result. -/
def DelayedFuture.poll {O E : Type} :
    DelayedFuture O E → FuturePoll (DelayedFuture O E) O E
  | ⟨0, Except.ok o⟩ => FuturePoll.ready o
  | ⟨0, Except.error e⟩ => FuturePoll.err e
  | ⟨n + 1, r⟩ => FuturePoll.notReady ⟨n, r⟩

/-- The outcome of driving a state machine to completion by repeated
polling (what `tokio::run` does for the example): completion, failure, an
unwound panic, or running out of polling budget. -/
inductive DriveResult (O E : Type) : Type where
  | completed (value : O)
  | failed (e : E)
  | crashed (msg : String)
  | timedOut
deriving Repr

/-- Drive a state machine by polling at most `fuel` times. -/
def drive {S O E : Type} (poll : S → PollResult S O E) :
    Nat → S → DriveResult O E
  | 0, _ => DriveResult.timedOut
  | fuel + 1, s =>
    match poll s with
    | PollResult.ready o _ => DriveResult.completed o
    | PollResult.err e _ => DriveResult.failed e
    | PollResult.notReady s2 => drive poll fuel s2
    | PollResult.panicked msg => DriveResult.crashed msg

/-!
## The generated server dispatch (`build/src/lib.rs`)

The generator emits, per service, a closed method-descriptor enum, a
`ServiceDescriptor` impl whose `methods()` lists every variant, and a
server whose `call_inner` selects a decode/invoke/encode chain by an
exhaustive `match` over the enum.  We instantiate the template at the
example's `Greeting` service (`say_hello` / `say_goodbye`), with the
business methods modelled as immediately-completing functions (the
example's `FutureResult`), so the emitted
`future::result(decode(input)).and_then(invoke).and_then(encode)` chain
denotes an `Except` computation. -/

/-- The generated `GreetingMethodDescriptor` enum: one variant per declared
method, closed at generation time. -/
inductive GreetingMethodDescriptor : Type where
  | SayHello
  | SayGoodbye
deriving DecidableEq, Repr

/-- The generated `GreetingDescriptor::methods()`: the full, static method
list. -/
def GreetingDescriptor.methods : List GreetingMethodDescriptor :=
  [GreetingMethodDescriptor.SayHello, GreetingMethodDescriptor.SayGoodbye]

/-- The `Greeting` service trait: one business method per RPC, each
returning the declared output or the implementor's own error type. -/
structure GreetingService (E : Type) : Type where
  sayHello : Msg → Except E Msg
  sayGoodbye : Msg → Except E Msg

/-- The generated `GreetingServer::call_inner`: an exhaustive match over
the method descriptor; each arm decodes the input, invokes the selected
business method (wrapping its failure via `Error::execution`), and encodes
the output. -/
def GreetingServer.callInner {E : Type} (service : GreetingService E)
    (method : GreetingMethodDescriptor) (input : List Nat) :
    Except (Error E) (List Nat) :=
  match method with
  | GreetingMethodDescriptor.SayHello =>
    (rtDecode (E := E) Msg.decodeE input).bind fun i =>
      match service.sayHello i with
      | Except.ok o => rtEncode (E := E) Msg.encodeE o
      | Except.error e => Except.error (Error.execution e)
  | GreetingMethodDescriptor.SayGoodbye =>
    (rtDecode (E := E) Msg.decodeE input).bind fun i =>
      match service.sayGoodbye i with
      | Except.ok o => rtEncode (E := E) Msg.encodeE o
      | Except.error e => Except.error (Error.execution e)

/-- A spec-side dispatcher in which an "unknown method" outcome is
representable: the descriptor is first validated against the advertised
`methods()` list, and dispatch returns `none` for a descriptor not found
there (the outcome the spec says can never occur). -/
def GreetingServer.dispatchChecked {E : Type} (service : GreetingService E)
    (method : GreetingMethodDescriptor) (input : List Nat) :
    Option (Except (Error E) (List Nat)) :=
  if GreetingDescriptor.methods.contains method then
    some (GreetingServer.callInner service method input)
  else none

/-!
## The example `Echo` service (`example/src/main.rs`)

Used to instantiate the generic theorems at concrete values: a one-method
service whose business logic echoes its input, or fails with the unit
business error when configured to. -/

/-- The generated `EchoMethodDescriptor` enum (one method). -/
inductive EchoMethodDescriptor : Type where
  | Echo
deriving DecidableEq, Repr

/-- The example's unit business error (`struct Error`). -/
inductive ExError : Type where
  | mk
deriving DecidableEq, Repr

/-- The example's `EchoService`, failing iff its `fail` flag is set. -/
structure EchoService where
  fail : Bool
deriving DecidableEq, Repr

/-- The example's `EchoService::echo` business logic, with its immediate
`FutureResult` denoted as an `Except` value. -/
def EchoService.echo (svc : EchoService) (input : Msg) : Except ExError Msg :=
  if svc.fail then Except.error ExError.mk else Except.ok ⟨input.data⟩

/-- A codec encode step that always fails with insufficient remaining
space (the failure mode of `prost::Message::encode`), used to exercise the
local `Encode`-error paths at concrete inputs. -/
def alwaysFailEncode (_ : Msg) : Except EncodeError (List Nat) :=
  Except.error ⟨5, 0⟩

/-!
## Codec round-trip lemmas
-/

/-- Unfolding equation for `decodeFieldsAux` on a nonempty buffer with
nonzero fuel. -/
lemma decodeFieldsAux_cons (fuel : Nat) (m : Msg) (b : Nat) (t : List Nat) :
    decodeFieldsAux (fuel + 1) m (b :: t) =
      match decodeVarint (b :: t) with
      | none => Except.error ⟨"invalid varint"⟩
      | some (key, rest) =>
        let field := key / 8
        let wire := key % 8
        if wire = 2 then
          match decodeVarint rest with
          | none => Except.error ⟨"invalid varint"⟩
          | some (len, rest2) =>
            if len ≤ rest2.length then
              decodeFieldsAux fuel
                (if field = 1 then ⟨rest2.take len⟩ else m) (rest2.drop len)
            else Except.error ⟨"buffer underflow"⟩
        else if wire = 0 then
          if field = 1 then Except.error ⟨"invalid wire type"⟩
          else
            match decodeVarint rest with
            | none => Except.error ⟨"invalid varint"⟩
            | some (_, rest2) => decodeFieldsAux fuel m rest2
        else Except.error ⟨"invalid wire type"⟩ := rfl

lemma decodeVarint_encodeVarintAux (fuel : Nat) :
    ∀ (n : Nat), n < fuel → ∀ (rest : List Nat),
      decodeVarint (encodeVarintAux fuel n ++ rest) = some (n, rest) := by
  induction fuel with
  | zero => intro n hn; omega
  | succ fuel ih =>
    intro n hn rest
    by_cases h : n < 128
    · simp [encodeVarintAux, h, decodeVarint]
    · have h128 : (128 : Nat) ≤ n := Nat.le_of_not_lt h
      have hpos : 0 < n := lt_of_lt_of_le (by norm_num) h128
      have hdiv : n / 128 < n := Nat.div_lt_self hpos (by norm_num)
      have hfuel : n / 128 < fuel := by omega
      have hhead : ¬ (n % 128 + 128 < 128) := by omega
      simp only [encodeVarintAux, if_neg h, List.cons_append, decodeVarint,
        if_neg hhead, ih (n / 128) hfuel rest]
      congr 1
      ext
      · omega
      · rfl

/-- Round trip for the varint layer: decoding an encoded varint yields the
value and the untouched remainder. -/
lemma decodeVarint_encodeVarint (n : Nat) (rest : List Nat) :
    decodeVarint (encodeVarint n ++ rest) = some (n, rest) :=
  decodeVarint_encodeVarintAux (n + 1) n (Nat.lt_succ_self n) rest

lemma encodeVarintAux_length (fuel : Nat) :
    ∀ (n : Nat), (encodeVarintAux fuel n).length = varintLenAux fuel n := by
  induction fuel with
  | zero => intro n; simp [encodeVarintAux, varintLenAux]
  | succ fuel ih =>
    intro n
    by_cases h : n < 128
    · simp [encodeVarintAux, varintLenAux, h]
    · simp [encodeVarintAux, varintLenAux, h, ih]
      omega

/-- The arithmetic `encoded_len_varint` agrees with the bytes actually
written. -/
lemma encodeVarint_length (n : Nat) :
    (encodeVarint n).length = varintLen n :=
  encodeVarintAux_length (n + 1) n

lemma decodeFieldsAux_nil (fuel : Nat) (m : Msg) :
    decodeFieldsAux fuel m [] = Except.ok m := by
  cases fuel <;> rfl

/-- Round trip for the message codec: decoding an encoded `Msg` hydrates
exactly the original message. -/
lemma decodeMsg_encodeMsg (m : Msg) : decodeMsg (encodeMsg m) = Except.ok m := by
  rcases m with ⟨data⟩
  by_cases h : data = []
  · subst h; rfl
  · have hlen : encodeMsg ⟨data⟩ = 10 :: (encodeVarint data.length ++ data) := by
      simp [encodeMsg, h]
    rw [decodeMsg, hlen]
    simp only [List.length_cons]
    rw [decodeFieldsAux_cons]
    simp [decodeVarint, decodeVarint_encodeVarint, decodeFieldsAux_nil]

/-!
## Buffer lemmas for `__rt::encode`
-/

lemma BytesMut.putBytes_within_capacity (xs : List Nat) :
    ∀ (b : BytesMut), b.data.length + xs.length ≤ b.capacity →
      b.putBytes xs = ⟨b.capacity, b.data ++ xs, b.reallocs⟩ := by
  induction xs with
  | nil => intro b _; simp [BytesMut.putBytes]
  | cons x xs ih =>
    intro b h
    have hx : b.data.length + 1 ≤ b.capacity := by
      simp only [List.length_cons] at h; omega
    have hstep : b.putByte x = ⟨b.capacity, b.data ++ [x], b.reallocs⟩ := by
      simp [BytesMut.putByte, hx]
    have htail : (b.data ++ [x]).length + xs.length ≤ b.capacity := by
      simp only [List.length_append, List.length_cons, List.length_nil] at *
      omega
    calc b.putBytes (x :: xs)
        = (b.putByte x).putBytes xs := by simp [BytesMut.putBytes]
      _ = BytesMut.putBytes ⟨b.capacity, b.data ++ [x], b.reallocs⟩ xs := by
          rw [hstep]
      _ = ⟨b.capacity, (b.data ++ [x]) ++ xs, b.reallocs⟩ := ih _ htail
      _ = ⟨b.capacity, b.data ++ x :: xs, b.reallocs⟩ := by simp

/-- The arithmetic `encoded_len` precomputation agrees with the bytes
`encodeMsg` actually writes. -/
lemma encodeMsg_length (m : Msg) : (encodeMsg m).length = encodedLenMsg m := by
  by_cases h : m.data = [] <;>
    simp [encodeMsg, encodedLenMsg, h, encodeVarint_length]
  omega

/-!
## Claim theorems
-/

/-- C4: for every message `m` of a supported message type, decoding the
byte sequence produced by encoding `m` yields `m` again:
`decode(encode(m)) == m` through the `__rt::encode` / `__rt::decode`
helpers. -/
theorem c4_decode_encode_roundtrip (E : Type) (m : Msg) :
    (rtEncode (E := E) Msg.encodeE m).bind (rtDecode (E := E) Msg.decodeE)
      = Except.ok m := by
  simp [rtEncode, rtDecode, Msg.encodeE, Msg.decodeE, Except.bind,
    decodeMsg_encodeMsg]

/-- C8: `__rt::encode` computes the exact required buffer capacity (the
message's encoded length) before writing, allocates the output buffer with
that capacity, and the write fits it exactly, so no reallocation occurs. -/
theorem c8_encode_precomputes_capacity (m : Msg) :
    (rtEncodeBuf m).capacity = encodedLenMsg m ∧
    (rtEncodeBuf m).reallocs = 0 ∧
    (rtEncodeBuf m).data = encodeMsg m ∧
    (encodeMsg m).length = encodedLenMsg m := by
  have h : (BytesMut.withCapacity (encodedLenMsg m)).putBytes (encodeMsg m)
      = ⟨encodedLenMsg m, [] ++ encodeMsg m, 0⟩ :=
    BytesMut.putBytes_within_capacity (encodeMsg m)
      (BytesMut.withCapacity (encodedLenMsg m))
      (by simp [BytesMut.withCapacity, encodeMsg_length m])
  rw [rtEncodeBuf, h]
  exact ⟨rfl, rfl, by simp, encodeMsg_length m⟩

/-- C5: polling a `ClientFuture` or `ServerFuture` that has reached `Done`
fails with a fatal, unrecoverable panic (an unwound fault, not a normal
error return value). -/
theorem c5_repoll_done_panics
    {I H M F O E A I2 F2 O2 E2 : Type}
    (enc : I → Except EncodeError (List Nat))
    (dec : List Nat → Except DecodeError O)
    (hcall : H → M → List Nat → F)
    (pollF : F → FuturePoll F (List Nat) E)
    (dec2 : List Nat → Except DecodeError I2)
    (enc2 : O2 → Except EncodeError (List Nat))
    (pollB : F2 → FuturePoll F2 O2 E2) :
    clientPoll enc dec hcall pollF ClientFuture.Done
        = PollResult.panicked "cannot poll a client future twice" ∧
    serverPoll (A := A) dec2 enc2 pollB ServerFuture.Done
        = PollResult.panicked "cannot poll a server future twice" :=
  ⟨rfl, rfl⟩

/-- C6: every method descriptor value of the generated service is covered
by the exhaustive dispatch: it appears in the advertised `methods()` list,
and the spec-side lookup dispatcher (in which an "unknown method" outcome
is representable as `none`) always returns the exhaustive-match result. -/
theorem c6_exhaustive_dispatch {E : Type} (service : GreetingService E)
    (method : GreetingMethodDescriptor) (input : List Nat) :
    method ∈ GreetingDescriptor.methods ∧
    GreetingServer.dispatchChecked service method input
      = some (GreetingServer.callInner service method input) := by
  cases method <;>
    simp [GreetingDescriptor.methods, GreetingServer.dispatchChecked]

/-- C7: when the awaited sub-operation reports not-ready, `poll` returns
not-ready and the machine stays in the same `Call` (resp. `Execute`) state
holding exactly the in-flight sub-operation the sub-poll left behind (in
Rust the very same object, mutated in place). -/
theorem c7_notready_keeps_state
    {I H M F O E A I2 F2 O2 E2 : Type}
    (enc : I → Except EncodeError (List Nat))
    (dec : List Nat → Except DecodeError O)
    (hcall : H → M → List Nat → F)
    (pollF : F → FuturePoll F (List Nat) E)
    (dec2 : List Nat → Except DecodeError I2)
    (enc2 : O2 → Except EncodeError (List Nat))
    (pollB : F2 → FuturePoll F2 O2 E2) :
    (∀ (fut fut' : F), pollF fut = FuturePoll.notReady fut' →
      clientPoll enc dec hcall pollF (ClientFuture.Call fut)
        = PollResult.notReady (ClientFuture.Call fut')) ∧
    (∀ (fut fut' : F2), pollB fut = FuturePoll.notReady fut' →
      serverPoll (A := A) dec2 enc2 pollB (ServerFuture.Execute fut)
        = PollResult.notReady (ServerFuture.Execute fut')) := by
  constructor
  · intro fut fut' h
    simp [clientPoll, clientPollCall, h]
  · intro fut fut' h
    simp [serverPoll, serverPollExecute, h]

/-- C10: a freshly constructed `ClientFuture` whose handler future is
immediately ready completes in a single `poll`: encode, handler invocation
and decode all happen inside that first call, which returns `Ready` with
the typed output. -/
theorem c10_first_poll_completes
    {I H M F O E : Type}
    (enc : I → Except EncodeError (List Nat))
    (dec : List Nat → Except DecodeError O)
    (hcall : H → M → List Nat → F)
    (pollF : F → FuturePoll F (List Nat) E)
    (input : I) (handler : H) (method : M) (bs obs : List Nat) (o : O)
    (henc : enc input = Except.ok bs)
    (hready : pollF (hcall handler method bs) = FuturePoll.ready obs)
    (hdec : dec obs = Except.ok o) :
    clientPoll enc dec hcall pollF (ClientFuture.Encode input handler method)
      = PollResult.ready o ClientFuture.Done := by
  simp [clientPoll, clientPollCall, rtEncode, rtDecode, henc, hready, hdec]

/-- C2: an `Encode` or `Decode` error produced by a layer's own codec step
is returned with its tag intact (never wrapped in `Execution`), whereas
every error coming back from the awaited sub-operation — whatever its own
tag — is wrapped in exactly one fresh `Execution` variant. -/
theorem c2_local_codec_tags_kept
    {I H M F O E A I2 F2 O2 E2 : Type}
    (enc : I → Except EncodeError (List Nat))
    (dec : List Nat → Except DecodeError O)
    (hcall : H → M → List Nat → F)
    (pollF : F → FuturePoll F (List Nat) E)
    (dec2 : List Nat → Except DecodeError I2)
    (enc2 : O2 → Except EncodeError (List Nat))
    (pollB : F2 → FuturePoll F2 O2 E2) :
    (∀ (input : I) (handler : H) (method : M) (e : EncodeError),
      enc input = Except.error e →
      clientPoll enc dec hcall pollF (ClientFuture.Encode input handler method)
        = PollResult.err (Error.Encode e) ClientFuture.Done) ∧
    (∀ (fut : F) (bs : List Nat) (e : DecodeError),
      pollF fut = FuturePoll.ready bs → dec bs = Except.error e →
      clientPoll enc dec hcall pollF (ClientFuture.Call fut)
        = PollResult.err (Error.Decode e) ClientFuture.Done) ∧
    (∀ (fut : F) (e : E),
      pollF fut = FuturePoll.err e →
      clientPoll enc dec hcall pollF (ClientFuture.Call fut)
        = PollResult.err (Error.Execution e) ClientFuture.Done) ∧
    (∀ (bytes : List Nat) (handler : A) (method : A → I2 → F2) (e : DecodeError),
      dec2 bytes = Except.error e →
      serverPoll dec2 enc2 pollB (ServerFuture.Decode bytes handler method)
        = PollResult.err (Error.Decode e) ServerFuture.Done) ∧
    (∀ (fut : F2) (output : O2) (e : EncodeError),
      pollB fut = FuturePoll.ready output → enc2 output = Except.error e →
      serverPoll (A := A) dec2 enc2 pollB (ServerFuture.Execute fut)
        = PollResult.err (Error.Encode e) ServerFuture.Done) ∧
    (∀ (fut : F2) (e : E2),
      pollB fut = FuturePoll.err e →
      serverPoll (A := A) dec2 enc2 pollB (ServerFuture.Execute fut)
        = PollResult.err (Error.Execution e) ServerFuture.Done) := by
  refine ⟨?_, ?_, ?_, ?_, ?_, ?_⟩
  · intro input handler method e h
    simp [clientPoll, rtEncode, Error.fromEncodeError, h]
  · intro fut bs e h1 h2
    simp [clientPoll, clientPollCall, rtDecode, Error.fromDecodeError, h1, h2]
  · intro fut e h
    simp [clientPoll, clientPollCall, Error.execution, h]
  · intro bytes handler method e h
    simp [serverPoll, rtDecode, Error.fromDecodeError, h]
  · intro fut output e h1 h2
    simp [serverPoll, serverPollExecute, rtEncode, Error.fromEncodeError, h1, h2]
  · intro fut e h
    simp [serverPoll, serverPollExecute, Error.execution, h]

lemma clientPollCall_err_done {I H M F O E : Type}
    (dec : List Nat → Except DecodeError O)
    (pollF : F → FuturePoll F (List Nat) E)
    (fut : F) (e : Error E) (s' : ClientFuture I H M F)
    (h : clientPollCall dec pollF fut = PollResult.err e s') :
    s' = ClientFuture.Done := by
  unfold clientPollCall at h
  split at h
  · split at h <;> simp_all
  · simp_all
  · simp_all
  · simp_all

lemma clientPollCall_ready_done {I H M F O E : Type}
    (dec : List Nat → Except DecodeError O)
    (pollF : F → FuturePoll F (List Nat) E)
    (fut : F) (o : O) (s' : ClientFuture I H M F)
    (h : clientPollCall dec pollF fut = PollResult.ready o s') :
    s' = ClientFuture.Done := by
  unfold clientPollCall at h
  split at h
  · split at h <;> simp_all
  · simp_all
  · simp_all
  · simp_all

lemma serverPollExecute_err_done {A I F O E : Type}
    (enc : O → Except EncodeError (List Nat))
    (pollF : F → FuturePoll F O E)
    (fut : F) (e : Error E) (s' : ServerFuture A I F)
    (h : serverPollExecute enc pollF fut = PollResult.err e s') :
    s' = ServerFuture.Done := by
  unfold serverPollExecute at h
  split at h
  · split at h <;> simp_all
  · simp_all
  · simp_all
  · simp_all

lemma serverPollExecute_ready_done {A I F O E : Type}
    (enc : O → Except EncodeError (List Nat))
    (pollF : F → FuturePoll F O E)
    (fut : F) (bs : List Nat) (s' : ServerFuture A I F)
    (h : serverPollExecute enc pollF fut = PollResult.ready bs s') :
    s' = ServerFuture.Done := by
  unfold serverPollExecute at h
  split at h
  · split at h <;> simp_all
  · simp_all
  · simp_all
  · simp_all

/-- C9: whenever a `poll` completes — with an error of any kind or with a
value — the machine has already been left in `Done` (the `mem::replace`
placeholder is only ever overwritten on the not-ready path), and a
subsequent poll hits the terminal-state panic. -/
theorem c9_completion_leaves_done
    {I H M F O E A I2 F2 O2 E2 : Type}
    (enc : I → Except EncodeError (List Nat))
    (dec : List Nat → Except DecodeError O)
    (hcall : H → M → List Nat → F)
    (pollF : F → FuturePoll F (List Nat) E)
    (dec2 : List Nat → Except DecodeError I2)
    (enc2 : O2 → Except EncodeError (List Nat))
    (pollB : F2 → FuturePoll F2 O2 E2) :
    (∀ (s : ClientFuture I H M F) (e : Error E) (s' : ClientFuture I H M F),
      clientPoll enc dec hcall pollF s = PollResult.err e s' →
      s' = ClientFuture.Done) ∧
    (∀ (s : ClientFuture I H M F) (o : O) (s' : ClientFuture I H M F),
      clientPoll enc dec hcall pollF s = PollResult.ready o s' →
      s' = ClientFuture.Done) ∧
    clientPoll enc dec hcall pollF ClientFuture.Done
      = PollResult.panicked "cannot poll a client future twice" ∧
    (∀ (s : ServerFuture A I2 F2) (e : Error E2) (s' : ServerFuture A I2 F2),
      serverPoll dec2 enc2 pollB s = PollResult.err e s' →
      s' = ServerFuture.Done) ∧
    (∀ (s : ServerFuture A I2 F2) (bs : List Nat) (s' : ServerFuture A I2 F2),
      serverPoll dec2 enc2 pollB s = PollResult.ready bs s' →
      s' = ServerFuture.Done) ∧
    serverPoll (A := A) dec2 enc2 pollB ServerFuture.Done
      = PollResult.panicked "cannot poll a server future twice" := by
  refine ⟨?_, ?_, rfl, ?_, ?_, rfl⟩
  · intro s e s' h
    cases s with
    | Encode input handler method =>
      simp only [clientPoll] at h
      split at h
      · simp_all
      · exact clientPollCall_err_done dec pollF _ e s' h
    | Call fut =>
      exact clientPollCall_err_done dec pollF fut e s' h
    | Done => simp [clientPoll] at h
  · intro s o s' h
    cases s with
    | Encode input handler method =>
      simp only [clientPoll] at h
      split at h
      · simp_all
      · exact clientPollCall_ready_done dec pollF _ o s' h
    | Call fut =>
      exact clientPollCall_ready_done dec pollF fut o s' h
    | Done => simp [clientPoll] at h
  · intro s e s' h
    cases s with
    | Decode bytes handler method =>
      simp only [serverPoll] at h
      split at h
      · simp_all
      · exact serverPollExecute_err_done enc2 pollB _ e s' h
    | Execute fut =>
      exact serverPollExecute_err_done enc2 pollB fut e s' h
    | Done => simp [serverPoll] at h
  · intro s bs s' h
    cases s with
    | Decode bytes handler method =>
      simp only [serverPoll] at h
      split at h
      · simp_all
      · exact serverPollExecute_ready_done enc2 pollB _ bs s' h
    | Execute fut =>
      exact serverPollExecute_ready_done enc2 pollB fut bs s' h
    | Done => simp [serverPoll] at h

/-!
## Driving the in-process client/server composition

A client whose handler is the in-process server: the handler's call future
is a `ServerFuture` over the business logic, polled through
`serverAsFuture`.  The business future is a `DelayedFuture` that completes
after `n` not-ready polls. -/

lemma drive_server_execute_err
    {A I O E : Type}
    (decI : List Nat → Except DecodeError I)
    (encO : O → Except EncodeError (List Nat)) (e : E) :
    ∀ (k : Nat),
      drive (serverPoll (A := A) decI encO DelayedFuture.poll) (k + 1)
        (ServerFuture.Execute (⟨k, Except.error e⟩ : DelayedFuture O E))
        = DriveResult.failed (Error.execution e) := by
  intro k
  induction k with
  | zero =>
    simp [drive, serverPoll, serverPollExecute, DelayedFuture.poll,
      Error.execution]
  | succ k ih =>
    simp only [drive, serverPoll, serverPollExecute, DelayedFuture.poll]
    exact ih

lemma drive_client_server_execute_err
    {I O A M E : Type}
    (encI : I → Except EncodeError (List Nat))
    (decI : List Nat → Except DecodeError I)
    (encO : O → Except EncodeError (List Nat))
    (decO : List Nat → Except DecodeError O)
    (hcall : A → M → List Nat → ServerFuture A I (DelayedFuture O E))
    (e : E) :
    ∀ (k : Nat),
      drive (clientPoll encI decO hcall
          (serverAsFuture decI encO DelayedFuture.poll)) (k + 1)
        (ClientFuture.Call
          (ServerFuture.Execute (⟨k, Except.error e⟩ : DelayedFuture O E)))
        = DriveResult.failed (Error.execution (Error.execution e)) := by
  intro k
  induction k with
  | zero =>
    simp [drive, clientPoll, clientPollCall, serverAsFuture, serverPoll,
      serverPollExecute, DelayedFuture.poll, Error.execution]
  | succ k ih =>
    simp only [drive, clientPoll, clientPollCall, serverAsFuture, serverPoll,
      serverPollExecute, DelayedFuture.poll]
    exact ih

lemma drive_client_server_execute_ok
    {I O A M E : Type}
    (encI : I → Except EncodeError (List Nat))
    (decI : List Nat → Except DecodeError I)
    (encO : O → Except EncodeError (List Nat))
    (decO : List Nat → Except DecodeError O)
    (hcall : A → M → List Nat → ServerFuture A I (DelayedFuture O E))
    (o : O) (obs : List Nat)
    (hencO : encO o = Except.ok obs) (hdecO : decO obs = Except.ok o) :
    ∀ (k : Nat),
      drive (clientPoll encI decO hcall
          (serverAsFuture decI encO DelayedFuture.poll)) (k + 1)
        (ClientFuture.Call
          (ServerFuture.Execute (⟨k, Except.ok o⟩ : DelayedFuture O E)))
        = DriveResult.completed o := by
  intro k
  induction k with
  | zero =>
    simp [drive, clientPoll, clientPollCall, serverAsFuture, serverPoll,
      serverPollExecute, DelayedFuture.poll, rtEncode, rtDecode, hencO, hdecO]
  | succ k ih =>
    simp only [drive, clientPoll, clientPollCall, serverAsFuture, serverPoll,
      serverPollExecute, DelayedFuture.poll]
    exact ih

/-- C3: for every input message `m` and every non-failing business function
`f`, driving a `ClientFuture` whose handler is the in-process server over
`f` to completion yields exactly `f(m)`, unmodified.  The codec hypotheses
say that `m` and `f svc m` survive their encode/decode round trips; the
business future may delay its answer by any number `n` of polls. -/
theorem c3_inprocess_passthrough
    {I O A M E : Type}
    (encI : I → Except EncodeError (List Nat))
    (decI : List Nat → Except DecodeError I)
    (encO : O → Except EncodeError (List Nat))
    (decO : List Nat → Except DecodeError O)
    (svc : A) (f : A → I → O) (n : Nat) (method : M)
    (m : I) (bs obs : List Nat)
    (hencI : encI m = Except.ok bs) (hdecI : decI bs = Except.ok m)
    (hencO : encO (f svc m) = Except.ok obs)
    (hdecO : decO obs = Except.ok (f svc m)) :
    drive (clientPoll encI decO
        (fun a (_ : M) bytes => ServerFuture.Decode bytes a
          (fun a2 i => (⟨n, Except.ok (f a2 i)⟩ : DelayedFuture O E)))
        (serverAsFuture decI encO DelayedFuture.poll))
      (n + 1) (ClientFuture.Encode m svc method)
      = DriveResult.completed (f svc m) := by
  cases n with
  | zero =>
    simp [drive, clientPoll, clientPollCall, serverAsFuture, serverPoll,
      serverPollExecute, DelayedFuture.poll, rtEncode, rtDecode,
      hencI, hdecI, hencO, hdecO]
  | succ n' =>
    have step : clientPoll encI decO
        (fun a (_ : M) bytes => ServerFuture.Decode bytes a
          (fun a2 i => (⟨n' + 1, Except.ok (f a2 i)⟩ : DelayedFuture O E)))
        (serverAsFuture decI encO DelayedFuture.poll)
        (ClientFuture.Encode m svc method)
        = PollResult.notReady (ClientFuture.Call
            (ServerFuture.Execute ⟨n', Except.ok (f svc m)⟩)) := by
      simp [clientPoll, clientPollCall, serverAsFuture, serverPoll,
        serverPollExecute, DelayedFuture.poll, rtEncode, rtDecode,
        hencI, hdecI]
    rw [show n' + 1 + 1 = (n' + 1) + 1 from rfl, drive, step]
    exact drive_client_server_execute_ok encI decI encO decO _
      (f svc m) obs hencO hdecO n'

/-- C1: a business failure `e` surfaces from the server layer as
`Execution(e)`, and from a client whose handler is that server as
`Execution(Execution(e))`: one fresh `Execution` wrapper per handler layer
crossed, never fewer or more. -/
theorem c1_execution_nesting_depth
    {I O A M E : Type}
    (encI : I → Except EncodeError (List Nat))
    (decI : List Nat → Except DecodeError I)
    (encO : O → Except EncodeError (List Nat))
    (decO : List Nat → Except DecodeError O)
    (svc : A) (e : E) (n : Nat) (method : M) (m : I) (bs : List Nat)
    (hencI : encI m = Except.ok bs) (hdecI : decI bs = Except.ok m) :
    drive (serverPoll decI encO DelayedFuture.poll) (n + 1)
        (ServerFuture.Decode bs svc
          (fun _ _ => (⟨n, Except.error e⟩ : DelayedFuture O E)))
      = DriveResult.failed (Error.execution e) ∧
    drive (clientPoll encI decO
        (fun a (_ : M) bytes => ServerFuture.Decode bytes a
          (fun _ _ => (⟨n, Except.error e⟩ : DelayedFuture O E)))
        (serverAsFuture decI encO DelayedFuture.poll))
      (n + 1) (ClientFuture.Encode m svc method)
      = DriveResult.failed (Error.execution (Error.execution e)) := by
  constructor
  · cases n with
    | zero =>
      simp [drive, serverPoll, serverPollExecute, DelayedFuture.poll,
        rtDecode, hdecI, Error.execution]
    | succ n' =>
      have step : serverPoll (A := A) decI encO DelayedFuture.poll
          (ServerFuture.Decode bs svc
            (fun _ _ => (⟨n' + 1, Except.error e⟩ : DelayedFuture O E)))
          = PollResult.notReady (ServerFuture.Execute ⟨n', Except.error e⟩) := by
        simp [serverPoll, serverPollExecute, DelayedFuture.poll, rtDecode, hdecI]
      rw [show n' + 1 + 1 = (n' + 1) + 1 from rfl, drive, step]
      exact drive_server_execute_err decI encO e n'
  · cases n with
    | zero =>
      simp [drive, clientPoll, clientPollCall, serverAsFuture, serverPoll,
        serverPollExecute, DelayedFuture.poll, rtEncode, rtDecode,
        hencI, hdecI, Error.execution]
    | succ n' =>
      have step : clientPoll encI decO
          (fun a (_ : M) bytes => ServerFuture.Decode bytes a
            (fun _ _ => (⟨n' + 1, Except.error e⟩ : DelayedFuture O E)))
          (serverAsFuture decI encO DelayedFuture.poll)
          (ClientFuture.Encode m svc method)
          = PollResult.notReady (ClientFuture.Call
              (ServerFuture.Execute ⟨n', Except.error e⟩)) := by
        simp [clientPoll, clientPollCall, serverAsFuture, serverPoll,
          serverPollExecute, DelayedFuture.poll, rtEncode, rtDecode,
          hencI, hdecI]
      rw [show n' + 1 + 1 = (n' + 1) + 1 from rfl, drive, step]
      exact drive_client_server_execute_err encI decI encO decO _ e n'

/-!
## Witnesses

Concrete instantiations — the example `Echo` service with input
`data = [1, 2, 3]` (whose encoding is `[10, 3, 1, 2, 3]`) — discharging
every hypothesis of the theorems above at computable values. -/

/-- Witness for C1 at the example's failing echo service (the `echo_fail`
test): one `Execution` wrapper from the server layer, two from the client
over that server. -/
theorem c1_witness :
    (drive (serverPoll Msg.decodeE Msg.encodeE DelayedFuture.poll) (0 + 1)
        (ServerFuture.Decode [10, 3, 1, 2, 3] (EchoService.mk true)
          (fun _ _ => (⟨0, Except.error ExError.mk⟩ : DelayedFuture Msg ExError)))
      = DriveResult.failed (Error.execution ExError.mk)) ∧
    (drive (clientPoll Msg.encodeE Msg.decodeE
        (fun a (_ : EchoMethodDescriptor) bytes => ServerFuture.Decode bytes a
          (fun _ _ => (⟨0, Except.error ExError.mk⟩ : DelayedFuture Msg ExError)))
        (serverAsFuture Msg.decodeE Msg.encodeE DelayedFuture.poll))
      (0 + 1) (ClientFuture.Encode (Msg.mk [1, 2, 3]) (EchoService.mk true)
        EchoMethodDescriptor.Echo)
      = DriveResult.failed (Error.execution (Error.execution ExError.mk))) :=
  c1_execution_nesting_depth Msg.encodeE Msg.decodeE Msg.encodeE Msg.decodeE
    (EchoService.mk true) ExError.mk 0 EchoMethodDescriptor.Echo
    (Msg.mk [1, 2, 3]) [10, 3, 1, 2, 3] rfl rfl

/-- Witness for C2: each of the six tagging facts instantiated at concrete
codecs, futures and messages. -/
theorem c2_witness :
    (clientPoll alwaysFailEncode Msg.decodeE
        (fun (_ : EchoService) (_ : EchoMethodDescriptor) _ =>
          (⟨0, Except.ok []⟩ : DelayedFuture (List Nat) ExError))
        DelayedFuture.poll
        (ClientFuture.Encode (Msg.mk []) (EchoService.mk false)
          EchoMethodDescriptor.Echo)
      = PollResult.err (Error.Encode ⟨5, 0⟩) ClientFuture.Done) ∧
    (clientPoll alwaysFailEncode Msg.decodeE
        (fun (_ : EchoService) (_ : EchoMethodDescriptor) _ =>
          (⟨0, Except.ok []⟩ : DelayedFuture (List Nat) ExError))
        DelayedFuture.poll
        (ClientFuture.Call ⟨0, Except.ok [10]⟩)
      = PollResult.err (Error.Decode ⟨"invalid varint"⟩) ClientFuture.Done) ∧
    (clientPoll alwaysFailEncode Msg.decodeE
        (fun (_ : EchoService) (_ : EchoMethodDescriptor) _ =>
          (⟨0, Except.ok []⟩ : DelayedFuture (List Nat) ExError))
        DelayedFuture.poll
        (ClientFuture.Call ⟨0, Except.error ExError.mk⟩)
      = PollResult.err (Error.Execution ExError.mk) ClientFuture.Done) ∧
    (serverPoll Msg.decodeE alwaysFailEncode DelayedFuture.poll
        (ServerFuture.Decode [10] (EchoService.mk false)
          (fun a i => (⟨0, EchoService.echo a i⟩ : DelayedFuture Msg ExError)))
      = PollResult.err (Error.Decode ⟨"invalid varint"⟩) ServerFuture.Done) ∧
    (serverPoll (A := EchoService) Msg.decodeE alwaysFailEncode
        DelayedFuture.poll
        (ServerFuture.Execute
          (⟨0, Except.ok (Msg.mk [])⟩ : DelayedFuture Msg ExError))
      = PollResult.err (Error.Encode ⟨5, 0⟩) ServerFuture.Done) ∧
    (serverPoll (A := EchoService) Msg.decodeE alwaysFailEncode
        DelayedFuture.poll
        (ServerFuture.Execute
          (⟨0, Except.error ExError.mk⟩ : DelayedFuture Msg ExError))
      = PollResult.err (Error.Execution ExError.mk) ServerFuture.Done) := by
  refine ⟨?_, ?_, ?_, ?_, ?_, ?_⟩
  · exact (c2_local_codec_tags_kept alwaysFailEncode Msg.decodeE
      (fun (_ : EchoService) (_ : EchoMethodDescriptor) _ =>
        (⟨0, Except.ok []⟩ : DelayedFuture (List Nat) ExError))
      DelayedFuture.poll (A := EchoService) Msg.decodeE alwaysFailEncode
      (DelayedFuture.poll (O := Msg) (E := ExError))).1 (Msg.mk []) (EchoService.mk false)
      EchoMethodDescriptor.Echo ⟨5, 0⟩ rfl
  · exact (c2_local_codec_tags_kept alwaysFailEncode Msg.decodeE
      (fun (_ : EchoService) (_ : EchoMethodDescriptor) _ =>
        (⟨0, Except.ok []⟩ : DelayedFuture (List Nat) ExError))
      DelayedFuture.poll (A := EchoService) Msg.decodeE alwaysFailEncode
      (DelayedFuture.poll (O := Msg) (E := ExError))).2.1 ⟨0, Except.ok [10]⟩ [10]
      ⟨"invalid varint"⟩ rfl rfl
  · exact (c2_local_codec_tags_kept alwaysFailEncode Msg.decodeE
      (fun (_ : EchoService) (_ : EchoMethodDescriptor) _ =>
        (⟨0, Except.ok []⟩ : DelayedFuture (List Nat) ExError))
      DelayedFuture.poll (A := EchoService) Msg.decodeE alwaysFailEncode
      (DelayedFuture.poll (O := Msg) (E := ExError))).2.2.1 ⟨0, Except.error ExError.mk⟩ ExError.mk rfl
  · exact (c2_local_codec_tags_kept alwaysFailEncode Msg.decodeE
      (fun (_ : EchoService) (_ : EchoMethodDescriptor) _ =>
        (⟨0, Except.ok []⟩ : DelayedFuture (List Nat) ExError))
      DelayedFuture.poll (A := EchoService) Msg.decodeE alwaysFailEncode
      (DelayedFuture.poll (O := Msg) (E := ExError))).2.2.2.1 [10] (EchoService.mk false)
      (fun a i => (⟨0, EchoService.echo a i⟩ : DelayedFuture Msg ExError))
      ⟨"invalid varint"⟩ rfl
  · exact (c2_local_codec_tags_kept alwaysFailEncode Msg.decodeE
      (fun (_ : EchoService) (_ : EchoMethodDescriptor) _ =>
        (⟨0, Except.ok []⟩ : DelayedFuture (List Nat) ExError))
      DelayedFuture.poll (A := EchoService) Msg.decodeE alwaysFailEncode
      (DelayedFuture.poll (O := Msg) (E := ExError))).2.2.2.2.1
      (⟨0, Except.ok (Msg.mk [])⟩ : DelayedFuture Msg ExError) (Msg.mk [])
      ⟨5, 0⟩ rfl rfl
  · exact (c2_local_codec_tags_kept alwaysFailEncode Msg.decodeE
      (fun (_ : EchoService) (_ : EchoMethodDescriptor) _ =>
        (⟨0, Except.ok []⟩ : DelayedFuture (List Nat) ExError))
      DelayedFuture.poll (A := EchoService) Msg.decodeE alwaysFailEncode
      (DelayedFuture.poll (O := Msg) (E := ExError))).2.2.2.2.2 ⟨0, Except.error ExError.mk⟩ ExError.mk rfl

/-- Witness for C3 at the example's non-failing echo service: the
in-process round trip returns exactly the echoed message. -/
theorem c3_witness :
    drive (clientPoll Msg.encodeE Msg.decodeE
        (fun a (_ : EchoMethodDescriptor) bytes => ServerFuture.Decode bytes a
          (fun a2 i =>
            (⟨0, Except.ok ((fun (_ : EchoService) (i2 : Msg) => Msg.mk i2.data) a2 i)⟩ :
              DelayedFuture Msg ExError)))
        (serverAsFuture Msg.decodeE Msg.encodeE DelayedFuture.poll))
      (0 + 1) (ClientFuture.Encode (Msg.mk [1, 2, 3]) (EchoService.mk false)
        EchoMethodDescriptor.Echo)
      = DriveResult.completed (Msg.mk [1, 2, 3]) :=
  c3_inprocess_passthrough Msg.encodeE Msg.decodeE Msg.encodeE Msg.decodeE
    (EchoService.mk false) (fun _ i2 => Msg.mk i2.data) 0
    EchoMethodDescriptor.Echo (Msg.mk [1, 2, 3]) [10, 3, 1, 2, 3]
    [10, 3, 1, 2, 3] rfl rfl rfl rfl

/-- Witness for C7: a business future that needs one more poll leaves the
client in `Call` and the server in `Execute`, holding the counted-down
future. -/
theorem c7_witness :
    (clientPoll Msg.encodeE Msg.decodeE
        (fun (_ : EchoService) (_ : EchoMethodDescriptor) _ =>
          (⟨0, Except.ok []⟩ : DelayedFuture (List Nat) ExError))
        DelayedFuture.poll
        (ClientFuture.Call ⟨1, Except.ok []⟩)
      = PollResult.notReady (ClientFuture.Call ⟨0, Except.ok []⟩)) ∧
    (serverPoll (A := EchoService) Msg.decodeE Msg.encodeE DelayedFuture.poll
        (ServerFuture.Execute
          (⟨1, Except.ok (Msg.mk [])⟩ : DelayedFuture Msg ExError))
      = PollResult.notReady (ServerFuture.Execute
          (⟨0, Except.ok (Msg.mk [])⟩ : DelayedFuture Msg ExError))) :=
  ⟨(c7_notready_keeps_state Msg.encodeE Msg.decodeE
      (fun (_ : EchoService) (_ : EchoMethodDescriptor) _ =>
        (⟨0, Except.ok []⟩ : DelayedFuture (List Nat) ExError))
      DelayedFuture.poll (A := EchoService) Msg.decodeE Msg.encodeE
      (DelayedFuture.poll (O := Msg) (E := ExError))).1 ⟨1, Except.ok []⟩ ⟨0, Except.ok []⟩ rfl,
   (c7_notready_keeps_state Msg.encodeE Msg.decodeE
      (fun (_ : EchoService) (_ : EchoMethodDescriptor) _ =>
        (⟨0, Except.ok []⟩ : DelayedFuture (List Nat) ExError))
      DelayedFuture.poll (A := EchoService) Msg.decodeE Msg.encodeE
      (DelayedFuture.poll (O := Msg) (E := ExError))).2
      (⟨1, Except.ok (Msg.mk [])⟩ : DelayedFuture Msg ExError)
      (⟨0, Except.ok (Msg.mk [])⟩ : DelayedFuture Msg ExError) rfl⟩

/-- Witness for C9: a poll that fails locally (encode error) and a poll
that completes successfully both leave the machine in `Done`. -/
theorem c9_witness :
    (ClientFuture.Done : ClientFuture Msg EchoService EchoMethodDescriptor
        (DelayedFuture (List Nat) ExError)) = ClientFuture.Done ∧
    (ServerFuture.Done : ServerFuture EchoService Msg
        (DelayedFuture Msg ExError)) = ServerFuture.Done :=
  ⟨(c9_completion_leaves_done alwaysFailEncode Msg.decodeE
      (fun (_ : EchoService) (_ : EchoMethodDescriptor) _ =>
        (⟨0, Except.ok []⟩ : DelayedFuture (List Nat) ExError))
      DelayedFuture.poll (A := EchoService) Msg.decodeE alwaysFailEncode
      (DelayedFuture.poll (O := Msg) (E := ExError))).1
      (ClientFuture.Encode (Msg.mk []) (EchoService.mk false)
        EchoMethodDescriptor.Echo)
      (Error.Encode ⟨5, 0⟩) ClientFuture.Done rfl,
   (c9_completion_leaves_done alwaysFailEncode Msg.decodeE
      (fun (_ : EchoService) (_ : EchoMethodDescriptor) _ =>
        (⟨0, Except.ok []⟩ : DelayedFuture (List Nat) ExError))
      DelayedFuture.poll (A := EchoService) Msg.decodeE alwaysFailEncode
      (DelayedFuture.poll (O := Msg) (E := ExError))).2.2.2.1
      (ServerFuture.Execute ⟨0, Except.error ExError.mk⟩)
      (Error.Execution ExError.mk) ServerFuture.Done rfl⟩

/-- Witness for C10: the echo client's first poll, against the in-process
server whose business future is immediate, encodes, dispatches, decodes and
returns `Ready` at once. -/
theorem c10_witness :
    clientPoll Msg.encodeE Msg.decodeE
        (fun (a : EchoService) (_ : EchoMethodDescriptor) bytes =>
          ServerFuture.Decode bytes a
            (fun a2 i => (⟨0, EchoService.echo a2 i⟩ : DelayedFuture Msg ExError)))
        (serverAsFuture Msg.decodeE Msg.encodeE DelayedFuture.poll)
        (ClientFuture.Encode (Msg.mk [1, 2, 3]) (EchoService.mk false)
          EchoMethodDescriptor.Echo)
      = PollResult.ready (Msg.mk [1, 2, 3]) ClientFuture.Done :=
  c10_first_poll_completes Msg.encodeE Msg.decodeE
    (fun (a : EchoService) (_ : EchoMethodDescriptor) bytes =>
      ServerFuture.Decode bytes a
        (fun a2 i => (⟨0, EchoService.echo a2 i⟩ : DelayedFuture Msg ExError)))
    (serverAsFuture Msg.decodeE Msg.encodeE DelayedFuture.poll)
    (Msg.mk [1, 2, 3]) (EchoService.mk false) EchoMethodDescriptor.Echo
    [10, 3, 1, 2, 3] [10, 3, 1, 2, 3] (Msg.mk [1, 2, 3]) rfl rfl rfl

end ProstSimpleRpc
